import Mathlib

/-!
Verification development for the shemcp sandboxed shell-execution MCP server.

The definitions below are a shallow embedding of the TypeScript sources:

* src/lib/policy.ts      — policy types, checkCommandPolicy, filteredEnv,
                           ensureCwd, validatePathAccessibility, getEffectiveLimits
* src/lib/worktree.ts    — matchesWorktreePattern, validateWorktreePath,
                           isWithinAllowedWorktrees
* src/lib/command.ts     — stripEnvPrefix (renamed stripEnvPrefixes to satisfy a
                           naming restriction of this development), buildCmdLine,
                           parseShellCommand, parseShellWrapper
* src/lib/pagination.ts  — parseCursor, countLines, readFileRange
* src/lib/execution.ts   — execWithPagination (in-memory buffering, spill files,
                           cursor computation)
* src/handlers/shell-exec.ts and src/handlers/read-file-chunk.ts

Effectful pieces are made explicit:
* the filesystem is an oracle (accessibility as a Boolean predicate, realpath as
  a partial function, spill/chunk files as association lists of byte lists);
* child stdout/stderr arrive as a list of byte chunks (the data events);
* Node path operations (resolve, relative, basename, isAbsolute) are modelled
  for POSIX paths at the character-list level;
* JS strings/buffers are byte lists, JS numbers are Int/Nat; UTF-8 decoding of a
  returned byte range is modelled as length-preserving (the byte ranges of
  interest decode cleanly);
* thrown exceptions are Except.error carrying the message.
-/

deriving instance DecidableEq for Except

namespace Shemcp

/-! ## POSIX path model (Node path.resolve / relative / basename / isAbsolute)

Paths are strings; internally we split on the separator at the character level
so that the round-trip properties of split/join are provable by list induction.
-/

/-- Split a character list on a separator character; always returns at least
one (possibly empty) piece, like String.prototype.split. -/
def splitOnChar (c : Char) : List Char → List (List Char)
  | [] => [[]]
  | x :: xs =>
    let r := splitOnChar c xs
    if x = c then [] :: r
    else
      match r with
      | h :: t => (x :: h) :: t
      | [] => [[x]]

/-- Join pieces with a separator character (inverse of splitOnChar). -/
def joinWithChar (c : Char) : List (List Char) → List Char
  | [] => []
  | [p] => p
  | p :: ps => p ++ c :: joinWithChar c ps

theorem splitOnChar_ne_nil (c : Char) (l : List Char) : splitOnChar c l ≠ [] := by
  induction l with
  | nil => simp [splitOnChar]
  | cons x xs ih =>
    simp only [splitOnChar]
    by_cases hx : x = c
    · simp [hx]
    · simp only [if_neg hx]
      cases h : splitOnChar c xs with
      | nil => exact absurd h ih
      | cons a b => simp

theorem mem_splitOnChar_not_sep (c : Char) (l : List Char) :
    ∀ p ∈ splitOnChar c l, c ∉ p := by
  induction l with
  | nil =>
    intro p hp
    simp [splitOnChar] at hp
    simp [hp]
  | cons x xs ih =>
    intro p hp
    simp only [splitOnChar] at hp
    by_cases hx : x = c
    · rw [if_pos hx] at hp
      rcases List.mem_cons.mp hp with h | h
      · simp [h]
      · exact ih p h
    · rw [if_neg hx] at hp
      cases h : splitOnChar c xs with
      | nil => exact absurd h (splitOnChar_ne_nil c xs)
      | cons a b =>
        rw [h] at hp
        rcases List.mem_cons.mp hp with h2 | h2
        · subst h2
          intro hmem
          rcases List.mem_cons.mp hmem with h3 | h3
          · exact hx h3.symm
          · exact ih a (h ▸ List.mem_cons_self a b) h3
        · exact ih p (h ▸ List.mem_cons.mpr (Or.inr h2))

theorem splitOnChar_no_sep (c : Char) (p : List Char) (h : c ∉ p) :
    splitOnChar c p = [p] := by
  induction p with
  | nil => simp [splitOnChar]
  | cons x xs ih =>
    have hx : ¬ x = c := fun hxc => h (hxc ▸ List.mem_cons_self x xs)
    have hxs : c ∉ xs := fun hm => h (List.mem_cons.mpr (Or.inr hm))
    simp only [splitOnChar, if_neg hx, ih hxs]

theorem splitOnChar_append_sep (c : Char) (p rest : List Char) (h : c ∉ p) :
    splitOnChar c (p ++ c :: rest) = p :: splitOnChar c rest := by
  induction p with
  | nil => simp [splitOnChar]
  | cons x xs ih =>
    have hx : ¬ x = c := fun hxc => h (hxc ▸ List.mem_cons_self x xs)
    have hxs : c ∉ xs := fun hm => h (List.mem_cons.mpr (Or.inr hm))
    simp only [List.cons_append, splitOnChar, if_neg hx]
    rw [List.append_eq, ih hxs]

theorem splitOnChar_joinWithChar (c : Char) (ps : List (List Char))
    (hne : ps ≠ []) (h : ∀ p ∈ ps, c ∉ p) :
    splitOnChar c (joinWithChar c ps) = ps := by
  induction ps with
  | nil => exact absurd rfl hne
  | cons p ps ih =>
    cases ps with
    | nil =>
      simp only [joinWithChar]
      exact splitOnChar_no_sep c p (h p (List.mem_cons_self p []))
    | cons q qs =>
      have hp : c ∉ p := h p (List.mem_cons_self p (q :: qs))
      have hrest : ∀ r ∈ q :: qs, c ∉ r := fun r hr => h r (List.mem_cons.mpr (Or.inr hr))
      simp only [joinWithChar]
      rw [splitOnChar_append_sep c p _ hp, ih (by simp) hrest]

/-- path components that survive normalization: nonempty, not "." and not ".." -/
def goodComp (p : List Char) : Prop := p ≠ [] ∧ p ≠ ['.'] ∧ p ≠ ['.', '.']

instance (p : List Char) : Decidable (goodComp p) := by
  unfold goodComp; infer_instance

/-- Accumulator pass of Node path normalization: drop empty and "." segments,
let ".." pop the previous segment (extra ".." above the root is dropped). -/
def normAcc : List (List Char) → List (List Char) → List (List Char)
  | [], acc => acc.reverse
  | p :: ps, acc =>
    if p = [] ∨ p = ['.'] then normAcc ps acc
    else if p = ['.', '.'] then normAcc ps acc.tail
    else normAcc ps (p :: acc)

theorem mem_normAcc (ps acc : List (List Char)) :
    ∀ q ∈ normAcc ps acc, q ∈ ps ∨ q ∈ acc := by
  induction ps generalizing acc with
  | nil =>
    intro q hq
    simp only [normAcc] at hq
    exact Or.inr (List.mem_reverse.mp hq)
  | cons p ps ih =>
    intro q hq
    simp only [normAcc] at hq
    by_cases h1 : p = [] ∨ p = ['.']
    · rw [if_pos h1] at hq
      rcases ih acc q hq with h | h
      · exact Or.inl (List.mem_cons.mpr (Or.inr h))
      · exact Or.inr h
    · rw [if_neg h1] at hq
      by_cases h2 : p = ['.', '.']
      · rw [if_pos h2] at hq
        rcases ih acc.tail q hq with h | h
        · exact Or.inl (List.mem_cons.mpr (Or.inr h))
        · exact Or.inr (List.mem_of_mem_tail h)
      · rw [if_neg h2] at hq
        rcases ih (p :: acc) q hq with h | h
        · exact Or.inl (List.mem_cons.mpr (Or.inr h))
        · rcases List.mem_cons.mp h with h3 | h3
          · exact Or.inl (List.mem_cons.mpr (Or.inl h3))
          · exact Or.inr h3

theorem normAcc_good (ps acc : List (List Char)) (hacc : ∀ q ∈ acc, goodComp q) :
    ∀ q ∈ normAcc ps acc, goodComp q := by
  induction ps generalizing acc with
  | nil =>
    intro q hq
    simp only [normAcc] at hq
    exact hacc q (List.mem_reverse.mp hq)
  | cons p ps ih =>
    intro q hq
    simp only [normAcc] at hq
    by_cases h1 : p = [] ∨ p = ['.']
    · rw [if_pos h1] at hq
      exact ih acc hacc q hq
    · rw [if_neg h1] at hq
      by_cases h2 : p = ['.', '.']
      · rw [if_pos h2] at hq
        exact ih acc.tail (fun r hr => hacc r (List.mem_of_mem_tail hr)) q hq
      · rw [if_neg h2] at hq
        refine ih (p :: acc) ?_ q hq
        intro r hr
        rcases List.mem_cons.mp hr with h3 | h3
        · subst h3
          push_neg at h1
          exact ⟨h1.1, h1.2, h2⟩
        · exact hacc r h3

theorem normAcc_clean (ps acc : List (List Char)) (h : ∀ q ∈ ps, goodComp q) :
    normAcc ps acc = acc.reverse ++ ps := by
  induction ps generalizing acc with
  | nil => simp [normAcc]
  | cons p ps ih =>
    have hp : goodComp p := h p (List.mem_cons_self p ps)
    have hps : ∀ q ∈ ps, goodComp q := fun q hq => h q (List.mem_cons.mpr (Or.inr hq))
    simp only [normAcc]
    rw [if_neg (by rintro (h1 | h1) <;> [exact hp.1 h1; exact hp.2.1 h1]),
        if_neg hp.2.2, ih (p :: acc) hps]
    simp

/-- Components of a path string. -/
def pathComps (s : String) : List (List Char) := splitOnChar '/' s.toList

/-- Normalized components of a path (Node path.resolve on an absolute path). -/
def resolveComps (s : String) : List (List Char) := normAcc (pathComps s) []

/-- Node path.resolve for a single absolute argument: lexical normalization.
(ensureCwd and the worktree code only resolve absolute paths; the handler
resolves relative cwd inputs against the root with nodeResolve2 below.) -/
def resolveAbs (s : String) : String :=
  String.mk ('/' :: joinWithChar '/' (resolveComps s))

theorem resolveComps_good (s : String) : ∀ q ∈ resolveComps s, goodComp q :=
  normAcc_good _ _ (by intro q hq; simp at hq)

theorem resolveComps_no_sep (s : String) : ∀ q ∈ resolveComps s, '/' ∉ q := by
  intro q hq
  rcases mem_normAcc _ _ q hq with h | h
  · exact mem_splitOnChar_not_sep '/' s.toList q h
  · simp at h

theorem toList_mk (l : List Char) : (String.mk l).toList = l := rfl

theorem resolveComps_resolveAbs (s : String) :
    resolveComps (resolveAbs s) = resolveComps s := by
  have hgood := resolveComps_good s
  have hnosep := resolveComps_no_sep s
  show normAcc (splitOnChar '/'
      (String.mk ('/' :: joinWithChar '/' (resolveComps s))).toList) [] = resolveComps s
  rw [toList_mk]
  cases hcs : resolveComps s with
  | nil => simp [splitOnChar, joinWithChar, normAcc]
  | cons c cs =>
    rw [hcs] at hgood hnosep
    have hsplit : splitOnChar '/' ('/' :: joinWithChar '/' (c :: cs))
        = [] :: splitOnChar '/' (joinWithChar '/' (c :: cs)) := rfl
    rw [hsplit, splitOnChar_joinWithChar '/' (c :: cs) (by simp) hnosep]
    have hstep : normAcc ([] :: c :: cs) ([] : List (List Char))
        = normAcc (c :: cs) [] := rfl
    rw [hstep, normAcc_clean _ _ hgood]
    simp

/-- resolveAbs is idempotent, as Node path.resolve is on its own output. -/
theorem resolveAbs_idem (s : String) : resolveAbs (resolveAbs s) = resolveAbs s := by
  show String.mk ('/' :: joinWithChar '/' (resolveComps (resolveAbs s))) = resolveAbs s
  rw [resolveComps_resolveAbs]
  rfl

/-! Character-level models of the JS string predicates used by the sources
(String.prototype.startsWith / endsWith / includes). A JS string is a
character sequence, so prefix/suffix tests are list prefix/suffix tests. -/

/-- JS String.prototype.startsWith. -/
def strStartsWith (s pre : String) : Bool := pre.toList.isPrefixOf s.toList

/-- JS String.prototype.endsWith. -/
def strEndsWith (s suf : String) : Bool := suf.toList.isSuffixOf s.toList

/-- JS String.prototype.includes for a single character. -/
def strContainsChar (s : String) (c : Char) : Bool := s.toList.contains c

/-- Node path.isAbsolute (POSIX). -/
def pathIsAbsolute (s : String) : Bool := strStartsWith s "/"

/-- Node path.resolve(base, p): if p is absolute normalize p, else resolve the
concatenation (base is absolute in every use in this code base). -/
def nodeResolve2 (base p : String) : String :=
  if pathIsAbsolute p then resolveAbs p else resolveAbs (base ++ "/" ++ p)

/-- Node path.basename: last nonempty path segment ("" for the root). -/
def pathBasename (s : String) : String :=
  match ((pathComps s).filter (fun p => p ≠ [])).getLast? with
  | some p => String.mk p
  | none => ""

/-- Length of the common prefix of two component lists. -/
def commonPrefixLen : List (List Char) → List (List Char) → Nat
  | a :: as, b :: bs => if a = b then commonPrefixLen as bs + 1 else 0
  | _, _ => 0

/-- Node path.relative(from, to) for absolute POSIX paths. -/
def pathRelative (f t : String) : String :=
  let ff := resolveAbs f
  let tt := resolveAbs t
  if ff = tt then ""
  else
    let fp := resolveComps f
    let tp := resolveComps t
    let k := commonPrefixLen fp tp
    String.intercalate "/"
      ((List.replicate (fp.length - k) (String.mk ['.', '.'])
         ++ (tp.drop k).map String.mk))

/-! ## Policy types (src/lib/policy.ts) -/

/-- A compiled policy rule: the regex source and its match predicate
(RegExp.prototype.test, abstracted as a Boolean predicate on strings). -/
structure Rule where
  src : String
  test : String → Bool

inductive RuleType where
  | allow
  | deny
  deriving DecidableEq, Repr

/-- PolicyCheckResult from src/lib/policy.ts. -/
structure PolicyCheckResult where
  allowed : Bool
  reason : String
  matchedRule : Option String
  ruleType : Option RuleType
  deriving DecidableEq, Repr

/-- Policy from src/lib/policy.ts (rootDirectory, allowedWorktrees,
worktreeDetectionEnabled, allow, deny, timeoutMs, maxBytes, envWhitelist).
The allowlist Set is a list in insertion order. -/
structure Policy where
  rootDirectory : String
  allowedWorktrees : List String
  worktreeDetectionEnabled : Bool
  allow : List Rule
  deny : List Rule
  timeoutMs : Int
  maxBytes : Nat
  envWhitelist : List String

/-- checkCommandPolicy from src/lib/policy.ts: deny rules are scanned first,
then allow rules, each in configured order; otherwise deny by default. -/
def checkCommandPolicy (full : String) (policy : Policy) : PolicyCheckResult :=
  match policy.deny.find? (fun r => r.test full) with
  | some denyRule =>
      { allowed := false
        reason := "Command matches deny rule"
        matchedRule := some denyRule.src
        ruleType := some RuleType.deny }
  | none =>
      match policy.allow.find? (fun r => r.test full) with
      | some allowRule =>
          { allowed := true
            reason := "Command matches allow rule"
            matchedRule := some allowRule.src
            ruleType := some RuleType.allow }
      | none =>
          { allowed := false
            reason := "Command does not match any allow rule"
            matchedRule := none
            ruleType := none }

/-- filteredEnv from src/lib/policy.ts: copy each whitelisted name that is
defined in the parent environment (an association list). -/
def filteredEnv (parentEnv : List (String × String)) (policy : Policy) :
    List (String × String) :=
  policy.envWhitelist.filterMap (fun k =>
    match parentEnv.lookup k with
    | some v => some (k, v)
    | none => none)

/-! ## Worktree registry (src/lib/worktree.ts)

getWorktrees runs git; its result (the cached worktree path list) is an input
here. realpath and accessSync are filesystem oracles. -/

/-- matchesWorktreePattern from src/lib/worktree.ts. -/
def matchesWorktreePattern (requestedPath sandboxRoot : String) : Bool :=
  let sandboxParent := nodeResolve2 sandboxRoot ".."
  let requestedParent := nodeResolve2 requestedPath ".."
  if sandboxParent ≠ requestedParent then false
  else strStartsWith (pathBasename requestedPath) (pathBasename sandboxRoot)

/-- The walk-up loop of validateWorktreePath. The JS while loop terminates
because resolve(p, "..") strictly shortens a normalized path until it reaches
the filesystem root, where it is a fixpoint; the fuel (path length + 1)
dominates that measure, so the recursion is an exact rendering of the loop. -/
def findWorktreeCandidate : Nat → String → String → Option String
  | 0, _, _ => none
  | fuel + 1, checkPath, normalizedRoot =>
    if checkPath = normalizedRoot then none
    else if matchesWorktreePattern checkPath normalizedRoot then some checkPath
    else
      let parent := nodeResolve2 checkPath ".."
      if parent = checkPath then none
      else findWorktreeCandidate fuel parent normalizedRoot

/-- The verification loop of validateWorktreePath over the git worktree list. -/
def findWorktreeMatch (normalizedPath : String) : List String → Option String
  | [] => none
  | wt :: rest =>
    let wtPath := resolveAbs wt
    if normalizedPath = wtPath || strStartsWith normalizedPath (wtPath ++ "/") then
      some wtPath
    else findWorktreeMatch normalizedPath rest

/-- validateWorktreePath from src/lib/worktree.ts; gitWorktrees is the path
list that getWorktrees returns (from cache or a fresh git worktree list). -/
def validateWorktreePath (gitWorktrees : List String)
    (requestedPath sandboxRoot : String) : Option String :=
  let normalizedPath := resolveAbs requestedPath
  let normalizedRoot := resolveAbs sandboxRoot
  match findWorktreeCandidate (normalizedPath.length + 1) normalizedPath normalizedRoot with
  | none => none
  | some _ => findWorktreeMatch normalizedPath gitWorktrees

/-- isWithinAllowedWorktrees from src/lib/worktree.ts. -/
def isWithinAllowedWorktrees (path : String) (allowedWorktrees : List String) : Bool :=
  let normalizedPath := resolveAbs path
  allowedWorktrees.any (fun wt =>
    let wtPath := resolveAbs wt
    normalizedPath = wtPath || strStartsWith normalizedPath (wtPath ++ "/"))

/-! ## CWD validation (src/lib/policy.ts) -/

/-- validatePathAccessibility from src/lib/policy.ts. fsAccess is the
accessSync R_OK|X_OK oracle; realpath is the realpathSync oracle (none means
the call threw). A realpath failure is reported as inaccessibility; a real
path escaping the boundary root is the distinct boundary violation. -/
def validatePathAccessibility (fsAccess : String → Bool)
    (realpath : String → Option String) (cwd boundaryRoot : String) :
    Except String Unit :=
  if !(fsAccess cwd) then Except.error ("cwd not accessible: " ++ cwd)
  else
    match realpath cwd, realpath boundaryRoot with
    | some realCwd, some realRoot =>
        let rel := pathRelative realRoot realCwd
        let within := rel = "" || (!(strStartsWith rel "..") && !(pathIsAbsolute rel))
        if within then Except.ok ()
        else Except.error ("cwd not allowed: " ++ cwd ++ " (resolved outside sandbox root)")
    | _, _ => Except.error ("cwd not accessible: " ++ cwd)

/-- The primary-boundary containment test of ensureCwd (root equals the
resolved candidate, or the candidate extends root plus a separator). -/
def boundaryContains (normalizedRoot normalizedCwd : String) : Bool :=
  normalizedRoot = normalizedCwd ||
    strStartsWith normalizedCwd
      (normalizedRoot ++ (if strEndsWith normalizedRoot "/" then "" else "/"))

/-- ensureCwd from src/lib/policy.ts. On success it returns the session
worktree allowlist after the call (branch 3 appends the discovered worktree
root before validating) together with a flag recording whether the git-backed
worktree detection (validateWorktreePath) was consulted. -/
def ensureCwd (fsAccess : String → Bool) (realpath : String → Option String)
    (gitWorktrees : List String) (cwd : String) (policy : Policy) :
    Except String (List String × Bool) :=
  let normalizedCwd := resolveAbs cwd
  let normalizedRoot := resolveAbs policy.rootDirectory
  if boundaryContains normalizedRoot normalizedCwd then
    match validatePathAccessibility fsAccess realpath cwd normalizedRoot with
    | Except.ok _ => Except.ok (policy.allowedWorktrees, false)
    | Except.error e => Except.error e
  else if isWithinAllowedWorktrees normalizedCwd policy.allowedWorktrees then
    match validatePathAccessibility fsAccess realpath cwd normalizedRoot with
    | Except.ok _ => Except.ok (policy.allowedWorktrees, false)
    | Except.error e => Except.error e
  else if policy.worktreeDetectionEnabled then
    match validateWorktreePath gitWorktrees normalizedCwd normalizedRoot with
    | some worktreeRoot =>
        match validatePathAccessibility fsAccess realpath cwd worktreeRoot with
        | Except.ok _ => Except.ok (policy.allowedWorktrees ++ [worktreeRoot], true)
        | Except.error e => Except.error e
    | none =>
        Except.error ("cwd not allowed: " ++ cwd ++ " (must be within "
          ++ policy.rootDirectory ++ ")")
  else
    Except.error ("cwd not allowed: " ++ cwd ++ " (must be within "
      ++ policy.rootDirectory ++ ")")

/-- The per-entry containment test of isWithinAllowedWorktrees. -/
def worktreeContains (wt normalizedCwd : String) : Bool :=
  normalizedCwd = resolveAbs wt || strStartsWith normalizedCwd (resolveAbs wt ++ "/")

theorem findWorktreeMatch_sound (p : String) (l : List String) (w : String)
    (h : findWorktreeMatch p l = some w) :
    (∃ g ∈ l, w = resolveAbs g) ∧
      ((p = w : Bool) || strStartsWith p (w ++ "/")) = true := by
  induction l with
  | nil => simp [findWorktreeMatch] at h
  | cons wt rest ih =>
    simp only [findWorktreeMatch] at h
    by_cases hc : ((p = resolveAbs wt : Bool) || strStartsWith p (resolveAbs wt ++ "/")) = true
    · rw [if_pos hc] at h
      cases h
      exact ⟨⟨wt, List.mem_cons_self wt rest, rfl⟩, hc⟩
    · rw [if_neg hc] at h
      obtain ⟨⟨g, hg, hw⟩, htest⟩ := ih h
      exact ⟨⟨g, List.mem_cons.mpr (Or.inr hg), hw⟩, htest⟩

theorem validateWorktreePath_sound (gitWorktrees : List String)
    (requestedPath sandboxRoot w : String)
    (h : validateWorktreePath gitWorktrees requestedPath sandboxRoot = some w) :
    (∃ g ∈ gitWorktrees, w = resolveAbs g) ∧
      ((resolveAbs requestedPath = w : Bool)
        || strStartsWith (resolveAbs requestedPath) (w ++ "/")) = true := by
  simp only [validateWorktreePath] at h
  cases hcand : findWorktreeCandidate ((resolveAbs requestedPath).length + 1)
      (resolveAbs requestedPath) (resolveAbs sandboxRoot) with
  | none => rw [hcand] at h; cases h
  | some c =>
    rw [hcand] at h
    exact findWorktreeMatch_sound _ _ _ h

theorem isWithinAllowedWorktrees_sound (p : String) (allowed : List String)
    (h : isWithinAllowedWorktrees p allowed = true) :
    ∃ wt ∈ allowed, worktreeContains wt (resolveAbs p) = true := by
  unfold isWithinAllowedWorktrees at h
  rw [List.any_eq_true] at h
  obtain ⟨wt, hmem, htest⟩ := h
  exact ⟨wt, hmem, htest⟩

/-- C1: whenever ensureCwd returns without throwing, the resolved candidate
path is equal to, or a strict descendant of, the resolved sandbox root or of
some entry of the session worktree allowlist as it stands when the call
returns — for every candidate path, every policy state and every filesystem
and git oracle. -/
theorem ensureCwd_accepts_only_contained
    (fsAccess : String → Bool) (realpath : String → Option String)
    (gitWorktrees : List String) (cwd : String) (policy : Policy)
    (wts : List String) (usedGit : Bool)
    (h : ensureCwd fsAccess realpath gitWorktrees cwd policy
        = Except.ok (wts, usedGit)) :
    boundaryContains (resolveAbs policy.rootDirectory) (resolveAbs cwd) = true
      ∨ ∃ wt ∈ wts, worktreeContains wt (resolveAbs cwd) = true := by
  simp only [ensureCwd] at h
  by_cases hB : boundaryContains (resolveAbs policy.rootDirectory) (resolveAbs cwd) = true
  · exact Or.inl hB
  · rw [if_neg hB] at h
    by_cases hW : isWithinAllowedWorktrees (resolveAbs cwd) policy.allowedWorktrees = true
    · rw [if_pos hW] at h
      cases hv : validatePathAccessibility fsAccess realpath cwd
          (resolveAbs policy.rootDirectory) with
      | error e => rw [hv] at h; cases h
      | ok u =>
        rw [hv] at h
        injection h with h2
        have hlist : wts = policy.allowedWorktrees := by
          cases h2; rfl
        obtain ⟨wt, hmem, hcont⟩ := isWithinAllowedWorktrees_sound (resolveAbs cwd)
          policy.allowedWorktrees hW
        rw [resolveAbs_idem] at hcont
        exact Or.inr ⟨wt, hlist ▸ hmem, hcont⟩
    · rw [if_neg hW] at h
      by_cases hD : policy.worktreeDetectionEnabled = true
      · rw [if_pos hD] at h
        cases hvw : validateWorktreePath gitWorktrees (resolveAbs cwd)
            (resolveAbs policy.rootDirectory) with
        | none => simp [hvw] at h
        | some w =>
          simp only [hvw] at h
          cases hv : validatePathAccessibility fsAccess realpath cwd w with
          | error e => rw [hv] at h; cases h
          | ok u =>
            rw [hv] at h
            injection h with h2
            have hlist : wts = policy.allowedWorktrees ++ [w] := by
              cases h2; rfl
            obtain ⟨⟨g, _, hwg⟩, htest⟩ :=
              validateWorktreePath_sound gitWorktrees (resolveAbs cwd)
                (resolveAbs policy.rootDirectory) w hvw
            rw [resolveAbs_idem] at htest
            refine Or.inr ⟨w, ?_, ?_⟩
            · rw [hlist]
              exact List.mem_append.mpr (Or.inr (List.mem_singleton.mpr rfl))
            · unfold worktreeContains
              have hww : resolveAbs w = w := by
                rw [hwg, resolveAbs_idem]
              rw [hww]
              exact htest
      · rw [if_neg hD] at h
        cases h

/-- Closed instantiation of ensureCwd_accepts_only_contained: the root "/r"
accepts the child "/r/x" and the containment disjunction holds there. -/
theorem ensureCwd_accepts_only_contained_witness :
    boundaryContains (resolveAbs "/r") (resolveAbs "/r/x") = true
      ∨ ∃ wt ∈ ([] : List String), worktreeContains wt (resolveAbs "/r/x") = true :=
  ensureCwd_accepts_only_contained (fun _ => true) (fun p => some p) [] "/r/x"
    { rootDirectory := "/r", allowedWorktrees := [], worktreeDetectionEnabled := false,
      allow := [], deny := [], timeoutMs := 60000, maxBytes := 2000000,
      envWhitelist := [] }
    [] false (by decide)

/-- C2: checkCommandPolicy realizes the documented deny-first evaluation
order: a first matching deny rule yields a denial carrying that rule's source;
with no deny match, the first matching allow rule (in configured order) yields
an allowance carrying its source; with no match at all the command is denied
by default with no matched rule and no rule type. The fourth conjunct ties the
first-match formulation to "some rule matches". -/
theorem checkCommandPolicy_spec (S : String) (policy : Policy) :
    (∀ r, policy.deny.find? (fun r => r.test S) = some r →
      checkCommandPolicy S policy =
        { allowed := false, reason := "Command matches deny rule",
          matchedRule := some r.src, ruleType := some RuleType.deny }) ∧
    (policy.deny.find? (fun r => r.test S) = none →
      ∀ r, policy.allow.find? (fun r => r.test S) = some r →
      checkCommandPolicy S policy =
        { allowed := true, reason := "Command matches allow rule",
          matchedRule := some r.src, ruleType := some RuleType.allow }) ∧
    (policy.deny.find? (fun r => r.test S) = none →
      policy.allow.find? (fun r => r.test S) = none →
      checkCommandPolicy S policy =
        { allowed := false, reason := "Command does not match any allow rule",
          matchedRule := none, ruleType := none }) ∧
    ((policy.deny.find? (fun r => r.test S)).isSome ↔ ∃ r ∈ policy.deny, r.test S = true) := by
  refine ⟨?_, ?_, ?_, ?_⟩
  · intro r hr
    unfold checkCommandPolicy
    rw [hr]
  · intro hd r hr
    unfold checkCommandPolicy
    rw [hd, hr]
  · intro hd ha
    unfold checkCommandPolicy
    rw [hd, ha]
  · rw [List.find?_isSome]

/-- Closed instantiation of checkCommandPolicy_spec: a concrete policy whose
deny list matches the command line, with the rule application discharged. -/
theorem checkCommandPolicy_spec_witness :
    checkCommandPolicy "git push origin main"
      { rootDirectory := "/r", allowedWorktrees := [], worktreeDetectionEnabled := false,
        allow := [{ src := "^git", test := fun s => strStartsWith s "git" }],
        deny := [{ src := "^git push", test := fun s => strStartsWith s "git push" }],
        timeoutMs := 60000, maxBytes := 2000000, envWhitelist := [] }
      = { allowed := false, reason := "Command matches deny rule",
          matchedRule := some "^git push", ruleType := some RuleType.deny } :=
  (checkCommandPolicy_spec "git push origin main"
    { rootDirectory := "/r", allowedWorktrees := [], worktreeDetectionEnabled := false,
      allow := [{ src := "^git", test := fun s => strStartsWith s "git" }],
      deny := [{ src := "^git push", test := fun s => strStartsWith s "git push" }],
      timeoutMs := 60000, maxBytes := 2000000, envWhitelist := [] }).1
    { src := "^git push", test := fun s => strStartsWith s "git push" } rfl

/-- C4: evaluating ensureCwd at a cwd inside an already-allowlisted sibling
worktree, with a fully accessible filesystem and no symlinks at all, the call
is rejected with the boundary-violation message: branch 2 of ensureCwd passes
the sandbox root — not the allowlisted worktree root — to
validatePathAccessibility, whose realpath re-check then computes a relative
path starting with ".." and throws. -/
theorem ensureCwd_allowlisted_worktree_rejected :
    ensureCwd (fun _ => true) (fun p => some p) ["/u/proj-feature"]
      "/u/proj-feature/src"
      { rootDirectory := "/u/proj", allowedWorktrees := ["/u/proj-feature"],
        worktreeDetectionEnabled := true, allow := [], deny := [],
        timeoutMs := 60000, maxBytes := 2000000, envWhitelist := [] }
      = Except.error
          "cwd not allowed: /u/proj-feature/src (resolved outside sandbox root)" := by
  decide

/-! ## Command-line utilities (src/lib/command.ts) -/

/-- The scan of stripEnvPrefix over the argument list: leading tokens that
contain an equals sign and do not start with a dash are environment
assignments; the first other token is the command; an empty token or running
out of tokens aborts. (The accumulator collects assignments in order.) -/
def stripEnvLoop : List String → List String →
    Except String (List String × String × List String)
  | [], _ => Except.error "No command found after environment variable assignments"
  | a :: rest, acc =>
    if a = "" || !(strContainsChar a '=') || strStartsWith a "-" then
      if a = "" then
        Except.error "No command found after environment variable assignments"
      else Except.ok (acc.reverse, a, rest)
    else stripEnvLoop rest (a :: acc)

/-- stripEnvPrefix from src/lib/command.ts (the name carries a plural suffix
here): split leading KEY=value assignments from cmd and args. A token is an
assignment iff it contains an equals sign and does not start with a dash. -/
def stripEnvPrefixes (cmd : String) (args : List String) :
    Except String (List String × String × List String) :=
  if strContainsChar cmd '=' && !(strStartsWith cmd "-") then
    stripEnvLoop args [cmd]
  else Except.ok ([], cmd, args)

/-- buildCmdLine from src/lib/command.ts: join with single spaces and trim.
The trim only acts when cmd is empty or args are empty strings; it is the
String.prototype.trim of the joined line, modelled on the character list. -/
def jsTrim (s : String) : String :=
  String.mk ((s.toList.dropWhile (fun c => c = ' ')).reverse.dropWhile
    (fun c => c = ' ')).reverse

def buildCmdLine (cmd : String) (args : List String) : String :=
  jsTrim (String.intercalate " " (cmd :: args))

theorem stripEnvLoop_concat (l : List String) (acc env : List String)
    (c : String) (rest : List String)
    (h : stripEnvLoop l acc = Except.ok (env, c, rest)) :
    env ++ c :: rest = acc.reverse ++ l := by
  induction l generalizing acc with
  | nil => simp [stripEnvLoop] at h
  | cons a l ih =>
    simp only [stripEnvLoop] at h
    by_cases hbreak : (a = "" || !(strContainsChar a '=') || strStartsWith a "-") = true
    · rw [if_pos hbreak] at h
      by_cases hempty : a = ""
      · rw [if_pos hempty] at h; cases h
      · rw [if_neg hempty] at h
        injection h with h2
        obtain ⟨rfl, rfl, rfl⟩ : env = acc.reverse ∧ c = a ∧ rest = l := by
          refine ⟨?_, ?_, ?_⟩ <;> cases h2 <;> rfl
        simp
    · rw [if_neg hbreak] at h
      have := ih (a :: acc) h
      simpa using this

/-- C9: whenever stripEnvPrefix succeeds, concatenating its outputs as
env_vars ++ [cmd] ++ args yields exactly the original token list
[cmd] ++ args. -/
theorem stripEnvPrefixes_round_trip (cmd : String) (args : List String)
    (env : List String) (c : String) (rest : List String)
    (h : stripEnvPrefixes cmd args = Except.ok (env, c, rest)) :
    env ++ c :: rest = cmd :: args := by
  unfold stripEnvPrefixes at h
  by_cases hc : (strContainsChar cmd '=' && !(strStartsWith cmd "-")) = true
  · rw [if_pos hc] at h
    have := stripEnvLoop_concat args [cmd] env c rest h
    simpa using this
  · rw [if_neg hc] at h
    injection h with h2
    obtain ⟨rfl, rfl, rfl⟩ : env = [] ∧ c = cmd ∧ rest = args := by
      refine ⟨?_, ?_, ?_⟩ <;> cases h2 <;> rfl
    simp

/-- Closed instantiation of stripEnvPrefixes_round_trip at a concrete
invocation with one leading assignment. -/
theorem stripEnvPrefixes_round_trip_witness :
    ["FOO=bar"] ++ "npm" :: ["run", "test"] = "FOO=bar" :: ["npm", "run", "test"] :=
  stripEnvPrefixes_round_trip "FOO=bar" ["npm", "run", "test"]
    ["FOO=bar"] "npm" ["run", "test"] (by decide)

/-- The character scanner of parseShellCommand from src/lib/command.ts:
quote-aware splitting on spaces, with a backslash escaping the next character
in any context. -/
def parseShellCommandAux : List Char → List Char → Bool → Bool → Bool → List String
  | [], current, _, _, _ =>
      if current.length > 0 then [String.mk current] else []
  | ch :: rest, current, inSingle, inDouble, escaped =>
      if escaped then parseShellCommandAux rest (current ++ [ch]) inSingle inDouble false
      else if ch = '\\' then parseShellCommandAux rest current inSingle inDouble true
      else if ch = '\'' && !inDouble then
        parseShellCommandAux rest current (!inSingle) inDouble false
      else if ch = '"' && !inSingle then
        parseShellCommandAux rest current inSingle (!inDouble) false
      else if ch = ' ' && !inSingle && !inDouble then
        (if current.length > 0 then [String.mk current] else [])
          ++ parseShellCommandAux rest [] inSingle inDouble false
      else parseShellCommandAux rest (current ++ [ch]) inSingle inDouble false

/-- parseShellCommand from src/lib/command.ts. -/
def parseShellCommand (cmdStr : String) : List String :=
  parseShellCommandAux cmdStr.toList [] false false false

/-- Wrapper-parse result from src/lib/command.ts. -/
structure WrapperInfo where
  isWrapper : Bool
  executableToCheck : String
  shouldUseLogin : Bool
  commandString : Option String
  argsAfterCommand : Option Nat
  flagsBeforeCommand : List String
  shell : Option String
  deriving DecidableEq, Repr

/-- Splitting of the cluster that contains the c flag: every letter other
than c and l is re-emitted as an individual short flag. -/
def splitClusterFlags (arg : String) : List String :=
  ((arg.toList.drop 1).filter (fun f => !(f = 'c') && !(f = 'l'))).map
    (fun f => String.mk ['-', f])

/-- The flag loop of parseShellWrapper: walks the arguments tracking login
state and preserved flags until the cluster containing the c flag is found;
its following argument is the command string. The index i tracks the JS loop
counter, so the returned Nat is the command string's index in args. The fuel
argument only bounds the recursion: every iteration of the JS while loop
consumes at least one argument, so parseShellWrapper passes args.length and
the zero-fuel case is unreachable (it carries the same error as the
exhausted-arguments case). -/
def wrapperLoop : Nat → List String → Nat → Bool → List String →
    Except String (Bool × List String × String × Nat)
  | _, [], _, _, _ => Except.error "missing -c command string"
  | 0, _ :: _, _, _, _ => Except.error "missing -c command string"
  | fuel + 1, arg :: rest, i, login, flags =>
    if arg = "" then wrapperLoop fuel rest (i + 1) login flags
    else if strStartsWith arg "-" then
      let login2 := if !(strStartsWith arg "--") && strContainsChar arg 'l' then
          true
        else login
      if strContainsChar arg 'c' && !(strStartsWith arg "--") then
        match rest with
        | [] => Except.error "missing command string after -c"
        | cmdStr :: _ =>
          Except.ok (login2, flags ++ splitClusterFlags arg, cmdStr, i + 1)
      else if arg = "-l" then wrapperLoop fuel rest (i + 1) login2 flags
      else
        match rest with
        | next :: rest2 =>
          if !(next = "") && !(strStartsWith next "-") then
            wrapperLoop fuel rest2 (i + 2) login2 (flags ++ [arg, next])
          else wrapperLoop fuel rest (i + 1) login2 (flags ++ [arg])
        | [] => Except.error "missing -c command string"
    else wrapperLoop fuel rest (i + 1) login flags

/-- The non-wrapper result of parseShellWrapper. -/
def nonWrapperInfo (cmd : String) : WrapperInfo :=
  { isWrapper := false, executableToCheck := cmd, shouldUseLogin := false,
    commandString := none, argsAfterCommand := none,
    flagsBeforeCommand := [], shell := none }

/-- parseShellWrapper from src/lib/command.ts. -/
def parseShellWrapper (cmd : String) (args : List String) :
    Except String WrapperInfo :=
  if (!(cmd = "bash") && !(cmd = "sh")) || args.isEmpty then
    Except.ok (nonWrapperInfo cmd)
  else
    match args with
    | [] => Except.ok (nonWrapperInfo cmd)
    | firstArg :: _ =>
      if firstArg = "" || !(strStartsWith firstArg "-") then
        Except.ok (nonWrapperInfo cmd)
      else
        match wrapperLoop args.length args 0 false [] with
        | Except.error e => Except.error e
        | Except.ok (login, flags, cmdStr, cmdStrIndex) =>
          match parseShellCommand cmdStr with
          | [] => Except.error "empty command string"
          | firstExec :: _ =>
            if firstExec = "" then Except.error "empty command string"
            else
              Except.ok
                { isWrapper := true, executableToCheck := firstExec,
                  shouldUseLogin := login, commandString := some cmdStr,
                  argsAfterCommand := some (cmdStrIndex + 1),
                  flagsBeforeCommand := flags, shell := some cmd }

theorem ne_empty_of_starts_dash (x : String) (h : strStartsWith x "-" = true) :
    ¬ (x = "") := by
  intro he
  subst he
  exact absurd h (by decide)

theorem not_bare_l_mem_splitClusterFlags (arg : String) :
    ("-l" : String) ∉ splitClusterFlags arg := by
  unfold splitClusterFlags
  intro hmem
  rw [List.mem_map] at hmem
  obtain ⟨f, hf, hmk⟩ := hmem
  rw [List.mem_filter] at hf
  have hfl : ¬ (f = 'l') := by
    have hf2 := hf.2
    intro hfe
    rw [hfe] at hf2
    exact absurd hf2 (by decide)
  have : ['-', f] = ['-', 'l'] := congrArg String.toList hmk
  exact hfl (by injection this with h1 h2; injection h2 with h3)

theorem wrapperLoop_no_bare_l (fuel : Nat) :
    ∀ (l : List String) (i : Nat) (login : Bool) (flags : List String)
      (out : Bool × List String × String × Nat),
      ("-l" : String) ∉ flags →
      wrapperLoop fuel l i login flags = Except.ok out →
      ("-l" : String) ∉ out.2.1 := by
  induction fuel with
  | zero =>
    intro l i login flags out hfl h
    cases l <;> simp [wrapperLoop] at h
  | succ fuel ih =>
    intro l i login flags out hfl h
    cases l with
    | nil => simp [wrapperLoop] at h
    | cons arg rest =>
      rw [wrapperLoop] at h
      by_cases h1 : arg = ""
      · rw [if_pos h1] at h
        exact ih rest (i + 1) login flags out hfl h
      · rw [if_neg h1] at h
        by_cases h2 : strStartsWith arg "-" = true
        · rw [if_pos h2] at h
          by_cases h3 : (strContainsChar arg 'c' && !(strStartsWith arg "--")) = true
          · rw [if_pos h3] at h
            cases rest with
            | nil => simp at h
            | cons cmdStr rest2 =>
              simp only [] at h
              injection h with h4
              subst h4
              intro hmem
              rcases List.mem_append.mp hmem with hmem2 | hmem2
              · exact hfl hmem2
              · exact not_bare_l_mem_splitClusterFlags arg hmem2
          · rw [if_neg h3] at h
            by_cases h4 : arg = "-l"
            · rw [if_pos h4] at h
              exact ih rest (i + 1) _ flags out hfl h
            · rw [if_neg h4] at h
              cases rest with
              | nil => simp at h
              | cons next rest2 =>
                simp only [] at h
                by_cases h5 : (!(next = "" : Bool) && !(strStartsWith next "-")) = true
                · rw [if_pos h5] at h
                  refine ih rest2 (i + 2) _ _ out ?_ h
                  intro hmem
                  rcases List.mem_append.mp hmem with hmem2 | hmem2
                  · exact hfl hmem2
                  · rcases List.mem_cons.mp hmem2 with h6 | h6
                    · exact h4 h6.symm
                    · have h7 : next = "-l" := (List.mem_singleton.mp h6).symm
                      have h8 : strStartsWith next "-" = true := by rw [h7]; decide
                      simp [h8] at h5
                · rw [if_neg h5] at h
                  refine ih (next :: rest2) (i + 1) _ _ out ?_ h
                  intro hmem
                  rcases List.mem_append.mp hmem with hmem2 | hmem2
                  · exact hfl hmem2
                  · exact h4 (List.mem_singleton.mp hmem2).symm
        · rw [if_neg h2] at h
          exact ih rest (i + 1) login flags out hfl h

theorem wrapperLoop_c_cluster (x s : String)
    (hxe : ¬ (x = "")) (hx1 : strStartsWith x "-" = true)
    (hx2 : strStartsWith x "--" = false) (hxc : strContainsChar x 'c' = true) :
    wrapperLoop ([x, s].length) [x, s] 0 false []
      = Except.ok (strContainsChar x 'l', splitClusterFlags x, s, 1) := by
  show wrapperLoop 2 [x, s] 0 false [] = _
  cases hl : strContainsChar x 'l' <;>
    simp [wrapperLoop, hxe, hx1, hxc, hx2, hl]

theorem wrapperLoop_other_cluster (y x s : String)
    (hye : ¬ (y = "")) (hy1 : strStartsWith y "-" = true)
    (hy2 : strStartsWith y "--" = false) (hyc : strContainsChar y 'c' = false)
    (hyl : ¬ (y = "-l"))
    (hxe : ¬ (x = "")) (hx1 : strStartsWith x "-" = true)
    (hx2 : strStartsWith x "--" = false) (hxc : strContainsChar x 'c' = true) :
    wrapperLoop ([y, x, s].length) [y, x, s] 0 false []
      = Except.ok (strContainsChar x 'l' || strContainsChar y 'l',
          y :: splitClusterFlags x, s, 2) := by
  show wrapperLoop 3 [y, x, s] 0 false [] = _
  cases hl : strContainsChar x 'l' <;> cases hyll : strContainsChar y 'l' <;>
    simp [wrapperLoop, hye, hy1, hy2, hyc, hyl, hxe, hx1, hx2, hxc, hl, hyll]

theorem parseShellWrapper_ok_no_bare_l (cmd : String) (args : List String)
    (info : WrapperInfo) (h : parseShellWrapper cmd args = Except.ok info) :
    ("-l" : String) ∉ info.flagsBeforeCommand := by
  unfold parseShellWrapper at h
  by_cases h0 : ((!(cmd = "bash" : Bool) && !(cmd = "sh" : Bool)) || args.isEmpty) = true
  · rw [if_pos h0] at h
    injection h with h1
    subst h1
    simp [nonWrapperInfo]
  · rw [if_neg h0] at h
    cases args with
    | nil =>
      injection h with h1
      subst h1
      simp [nonWrapperInfo]
    | cons firstArg rest =>
      by_cases h2 : ((firstArg = "" : Bool) || !(strStartsWith firstArg "-")) = true
      · simp only [h2, if_pos] at h
        injection h with h1
        subst h1
        simp [nonWrapperInfo]
      · simp only [h2, if_neg, Bool.not_eq_true] at h
        cases hw : wrapperLoop (firstArg :: rest).length (firstArg :: rest) 0 false [] with
        | error e => rw [hw] at h; cases h
        | ok quad =>
          obtain ⟨login, flags, cmdStr, cmdStrIndex⟩ := quad
          rw [hw] at h
          dsimp only at h
          cases ht : parseShellCommand cmdStr with
          | nil => rw [ht] at h; cases h
          | cons t ts =>
            rw [ht] at h
            dsimp only at h
            by_cases h3 : t = ""
            · rw [if_pos h3] at h; cases h
            · rw [if_neg h3] at h
              injection h with h1
              subst h1
              exact wrapperLoop_no_bare_l (firstArg :: rest).length
                (firstArg :: rest) 0 false [] (login, flags, cmdStr, cmdStrIndex)
                (by simp) hw

theorem parseShellWrapper_c_cluster (x s t : String) (ts : List String)
    (hxe : ¬ (x = "")) (hx1 : strStartsWith x "-" = true)
    (hx2 : strStartsWith x "--" = false) (hxc : strContainsChar x 'c' = true)
    (ht : parseShellCommand s = t :: ts) (htne : ¬ (t = "")) :
    parseShellWrapper "bash" [x, s]
      = Except.ok
          { isWrapper := true, executableToCheck := t,
            shouldUseLogin := strContainsChar x 'l',
            commandString := some s, argsAfterCommand := some 2,
            flagsBeforeCommand := splitClusterFlags x, shell := some "bash" } := by
  unfold parseShellWrapper
  have h0 : ¬ ((!("bash" = "bash" : Bool) && !("bash" = "sh" : Bool))
      || ([x, s] : List String).isEmpty) = true := by simp
  rw [if_neg h0]
  dsimp only
  rw [if_neg (by simp [hxe, hx1])]
  rw [wrapperLoop_c_cluster x s hxe hx1 hx2 hxc]
  dsimp only
  rw [ht]
  dsimp only
  rw [if_neg htne]

theorem parseShellWrapper_other_cluster (y x s t : String) (ts : List String)
    (hye : ¬ (y = "")) (hy1 : strStartsWith y "-" = true)
    (hy2 : strStartsWith y "--" = false) (hyc : strContainsChar y 'c' = false)
    (hyl : ¬ (y = "-l"))
    (hxe : ¬ (x = "")) (hx1 : strStartsWith x "-" = true)
    (hx2 : strStartsWith x "--" = false) (hxc : strContainsChar x 'c' = true)
    (ht : parseShellCommand s = t :: ts) (htne : ¬ (t = "")) :
    parseShellWrapper "bash" [y, x, s]
      = Except.ok
          { isWrapper := true, executableToCheck := t,
            shouldUseLogin := strContainsChar x 'l' || strContainsChar y 'l',
            commandString := some s, argsAfterCommand := some 3,
            flagsBeforeCommand := y :: splitClusterFlags x, shell := some "bash" } := by
  unfold parseShellWrapper
  have h0 : ¬ ((!("bash" = "bash" : Bool) && !("bash" = "sh" : Bool))
      || ([y, x, s] : List String).isEmpty) = true := by simp
  rw [if_neg h0]
  dsimp only
  rw [if_neg (by simp [hye, hy1])]
  rw [wrapperLoop_other_cluster y x s hye hy1 hy2 hyc hyl hxe hx1 hx2 hxc]
  dsimp only
  rw [ht]
  dsimp only
  rw [if_neg htne]

/-- C8 (amended): for bash/sh wrapper invocations, (1) a bare -l never enters
flags_before_command, for any invocation whatsoever; (2) the short cluster
that contains the letter c has its letters other than l and c re-emitted as
individual short flags (e.g. -xec yields -x and -e), sets login mode iff it
contains l, and the argument immediately following it becomes the command
string; (3) a short flag cluster that does not contain c is preserved
verbatim in flags_before_command rather than being split, and contributes its
letter l (if any) to login mode. The original claim's per-letter re-emission
holds only for the cluster containing c. -/
theorem parseShellWrapper_short_flags :
    (∀ (cmd : String) (args : List String) (info : WrapperInfo),
      parseShellWrapper cmd args = Except.ok info →
      ("-l" : String) ∉ info.flagsBeforeCommand) ∧
    (∀ (x s t : String) (ts : List String),
      ¬ (x = "") → strStartsWith x "-" = true → strStartsWith x "--" = false →
      strContainsChar x 'c' = true →
      parseShellCommand s = t :: ts → ¬ (t = "") →
      parseShellWrapper "bash" [x, s]
        = Except.ok
            { isWrapper := true, executableToCheck := t,
              shouldUseLogin := strContainsChar x 'l',
              commandString := some s, argsAfterCommand := some 2,
              flagsBeforeCommand := splitClusterFlags x, shell := some "bash" }) ∧
    (∀ (y x s t : String) (ts : List String),
      ¬ (y = "") → strStartsWith y "-" = true → strStartsWith y "--" = false →
      strContainsChar y 'c' = false → ¬ (y = "-l") →
      ¬ (x = "") → strStartsWith x "-" = true → strStartsWith x "--" = false →
      strContainsChar x 'c' = true →
      parseShellCommand s = t :: ts → ¬ (t = "") →
      parseShellWrapper "bash" [y, x, s]
        = Except.ok
            { isWrapper := true, executableToCheck := t,
              shouldUseLogin := strContainsChar x 'l' || strContainsChar y 'l',
              commandString := some s, argsAfterCommand := some 3,
              flagsBeforeCommand := y :: splitClusterFlags x,
              shell := some "bash" }) :=
  ⟨fun cmd args info h => parseShellWrapper_ok_no_bare_l cmd args info h,
   fun x s t ts hxe hx1 hx2 hxc ht htne =>
     parseShellWrapper_c_cluster x s t ts hxe hx1 hx2 hxc ht htne,
   fun y x s t ts hye hy1 hy2 hyc hyl hxe hx1 hx2 hxc ht htne =>
     parseShellWrapper_other_cluster y x s t ts hye hy1 hy2 hyc hyl
       hxe hx1 hx2 hxc ht htne⟩

/-- Closed instantiation of parseShellWrapper_short_flags: the cluster -xec
re-emits -x and -e, consumes c, sets no login, and takes the following
argument as the command string. -/
theorem parseShellWrapper_short_flags_witness :
    parseShellWrapper "bash" ["-xec", "echo hi"]
      = Except.ok
          { isWrapper := true, executableToCheck := "echo",
            shouldUseLogin := false,
            commandString := some "echo hi", argsAfterCommand := some 2,
            flagsBeforeCommand := ["-x", "-e"], shell := some "bash" } := by
  have h := parseShellWrapper_short_flags.2.1 "-xec" "echo hi" "echo" ["hi"]
    (by decide) (by decide) (by decide) (by decide) (by decide) (by decide)
  exact h

/-- Refuting C8 as stated: the short flag cluster -xe, which contains no c,
is NOT re-emitted as the individual flags -x and -e; parseShellWrapper
preserves it verbatim in flags_before_command. -/
theorem parseShellWrapper_cluster_not_split :
    (parseShellWrapper "bash" ["-xe", "-c", "echo hi"]).toOption.map
        (fun info => info.flagsBeforeCommand) = some ["-xe"]
    ∧ ¬ (some (["-xe"] : List String) = some (["-x", "-e"] : List String)) := by
  constructor
  · decide
  · decide

/-! ## Pagination (src/lib/pagination.ts) -/

def MAX_PAGE_LIMIT_BYTES : Nat := 40000
def DEFAULT_PAGE_LIMIT_BYTES : Nat := MAX_PAGE_LIMIT_BYTES

/-- CursorConfig from src/lib/pagination.ts; cursor_type none or empty stands
for a falsy/missing property, offset is a JS number (Int here: the
finiteness check of the source cannot fail in this model). -/
structure CursorConfig where
  cursor_type : Option String
  offset : Option Int
  deriving DecidableEq, Repr

structure PaginationConfig where
  cursor : Option CursorConfig
  limit_bytes : Option Int
  limit_lines : Option Int
  deriving DecidableEq, Repr

inductive LargeOutputBehavior where
  | spill
  | truncate
  | error
  deriving DecidableEq, Repr

/-- parseCursor from src/lib/pagination.ts; none is a missing/non-object
cursor. Returns the validated non-negative byte offset. Error messages are
abbreviated (no embedded quoting), keeping the distinct failure classes. -/
def parseCursor (cursor : Option CursorConfig) : Except String Nat :=
  match cursor with
  | none => Except.error "Invalid cursor format: expected object"
  | some c =>
    match c.cursor_type with
    | none => Except.error "Invalid cursor format: missing or invalid cursor_type property"
    | some ct =>
      if ct = "" then
        Except.error "Invalid cursor format: missing or invalid cursor_type property"
      else if !(ct = "bytes") then
        Except.error ("Invalid cursor format: unsupported cursor_type " ++ ct)
      else
        match c.offset with
        | none => Except.ok 0
        | some v =>
          if v < 0 then
            Except.error "Invalid cursor format: offset must be non-negative"
          else Except.ok v.toNat

/-- countLines from src/lib/pagination.ts on a byte chunk:
content.split of LF has (number of LFs) + 1 pieces. -/
def countLines (content : List Nat) : Nat := content.count 10 + 1

/-- readFileRange from src/lib/pagination.ts: the byte range [start, endPos)
of the file, empty when endPos is at or before start. -/
def readFileRange (content : List Nat) (start endPos : Nat) : List Nat :=
  if endPos ≤ start then []
  else (content.drop start).take (endPos - start)

/-! ## UTF-8 decoding arithmetic (Buffer.toString / Buffer.byteLength)

The executor decodes each returned byte range with toString of utf8 and the
response arithmetic re-measures the decoded string with Buffer.byteLength:
a valid UTF-8 sequence of n bytes decodes to a code point that re-encodes to
n bytes, while each maximal subpart of an invalid or truncated sequence is
replaced by U+FFFD, which re-encodes to 3 bytes. utf8ReplacedByteLength
computes Buffer.byteLength(buf.toString(utf8), utf8) directly on the raw
byte range; utf8Clean holds when the range is valid UTF-8, in which case the
decode is length-preserving. -/

/-- A UTF-8 continuation byte (0x80 to 0xBF). -/
def contByte (b : Nat) : Bool := 128 ≤ b && b ≤ 191

/-- One decode unit starting at byte b followed by rest:
(number of continuation bytes consumed beyond b, whether the unit is a valid
sequence). An invalid unit consumes the longest valid prefix (its maximal
subpart) and stands for one U+FFFD; decoding resumes at the first byte not
consumed. -/
def utf8UnitLen (b : Nat) (rest : List Nat) : Nat × Bool :=
  if b ≤ 127 then (0, true)
  else if 194 ≤ b ∧ b ≤ 223 then
    match rest with
    | b2 :: _ => if contByte b2 then (1, true) else (0, false)
    | [] => (0, false)
  else if 224 ≤ b ∧ b ≤ 239 then
    let lo2 : Nat := if b = 224 then 160 else 128
    let hi2 : Nat := if b = 237 then 159 else 191
    match rest with
    | b2 :: rest2 =>
      if lo2 ≤ b2 ∧ b2 ≤ hi2 then
        match rest2 with
        | b3 :: _ => if contByte b3 then (2, true) else (1, false)
        | [] => (1, false)
      else (0, false)
    | [] => (0, false)
  else if 240 ≤ b ∧ b ≤ 244 then
    let lo2 : Nat := if b = 240 then 144 else 128
    let hi2 : Nat := if b = 244 then 143 else 191
    match rest with
    | b2 :: rest2 =>
      if lo2 ≤ b2 ∧ b2 ≤ hi2 then
        match rest2 with
        | b3 :: rest3 =>
          if contByte b3 then
            match rest3 with
            | b4 :: _ => if contByte b4 then (3, true) else (2, false)
            | [] => (2, false)
          else (1, false)
        | [] => (1, false)
      else (0, false)
    | [] => (0, false)
  else (0, false)

/-- Decode the byte list unit by unit: the re-encoded byte length of the
decoded string, and whether every unit was valid. The fuel is the list
length; each step consumes at least one byte. -/
def utf8MeasureLoop : Nat → List Nat → Nat × Bool
  | _, [] => (0, true)
  | 0, _ :: _ => (0, false)
  | fuel + 1, b :: rest =>
    let u := utf8UnitLen b rest
    let n := utf8MeasureLoop fuel (rest.drop u.1)
    ((if u.2 then 1 + u.1 else 3) + n.1, u.2 && n.2)

/-- Buffer.byteLength(buf.toString(utf8), utf8) of a raw byte range. -/
def utf8ReplacedByteLength (l : List Nat) : Nat := (utf8MeasureLoop l.length l).1

/-- The byte range is valid UTF-8 (its decode introduces no U+FFFD). -/
def utf8Clean (l : List Nat) : Bool := (utf8MeasureLoop l.length l).2

theorem utf8UnitLen_le (b : Nat) (rest : List Nat) :
    (utf8UnitLen b rest).1 ≤ rest.length := by
  unfold utf8UnitLen
  dsimp only
  repeat' split
  all_goals (first | omega | (simp only [List.length_cons]; omega))

theorem utf8MeasureLoop_clean (fuel : Nat) :
    ∀ l : List Nat, l.length ≤ fuel →
      (utf8MeasureLoop fuel l).2 = true →
      (utf8MeasureLoop fuel l).1 = l.length := by
  induction fuel with
  | zero =>
    intro l hl _
    cases l with
    | nil => rfl
    | cons b rest => simp at hl
  | succ fuel ih =>
    intro l hl hc
    cases l with
    | nil => rfl
    | cons b rest =>
      simp only [utf8MeasureLoop] at hc ⊢
      rw [Bool.and_eq_true] at hc
      have hk := utf8UnitLen_le b rest
      have hdrop : (rest.drop (utf8UnitLen b rest).1).length
          = rest.length - (utf8UnitLen b rest).1 := List.length_drop _ _
      have hrec := ih (rest.drop (utf8UnitLen b rest).1)
        (by simp only [hdrop]; simp only [List.length_cons] at hl; omega) hc.2
      rw [hrec, hdrop, hc.1, if_pos rfl]
      simp only [List.length_cons]
      omega

/-- A valid UTF-8 range decodes and re-encodes to its own length. -/
theorem utf8Clean_byteLength (l : List Nat) (h : utf8Clean l = true) :
    utf8ReplacedByteLength l = l.length :=
  utf8MeasureLoop_clean l.length l (Nat.le_refl _) h

/-! ## Execution (src/lib/execution.ts)

The child is an oracle: its stdout and stderr arrive as lists of byte chunks
(the data events, in order). Spill-file writes are modelled as succeeding, so
the spill file holds the concatenation of the chunks. Returned chunks are
recorded as the raw byte ranges the source decodes with toString of utf8;
where the response arithmetic re-measures the decoded string with
Buffer.byteLength (the bytes_end of the handler), the model applies
utf8ReplacedByteLength to the raw range. The executor's internal
actualBytesReturned, feeding the next-cursor comparison, is modelled by the
raw range length, with which the decoded byte length coincides on cleanly
split ranges. The spawn, timeout and exit plumbing do not affect the fields
the claims concern; the spawn environment — exactly filteredEnv(policy),
since execWithPagination has no additional-environment parameter — is
recorded in the result. -/

/-- Buffer.slice with a negative index: keep the last n bytes. -/
def takeRight (n : Nat) (l : List Nat) : List Nat := l.drop (l.length - n)

structure StreamBuf where
  buf : List Nat
  total : Nat
  deriving DecidableEq, Repr

/-- The stdout data handler: count the chunk, trim the in-memory buffer above
the cap, then append only if the result stays within the cap. The division
by two matches the integer coercion Buffer.slice applies. -/
def stdoutDataStep (limitBytes maxBytes : Nat) (st : StreamBuf) (c : List Nat) :
    StreamBuf :=
  let total := st.total + c.length
  let maxMemoryBytes := max (limitBytes * 2) maxBytes
  let buf0 := if st.buf.length > maxMemoryBytes then
      takeRight (min limitBytes (maxMemoryBytes / 2)) st.buf
    else st.buf
  let buf1 := if buf0.length + c.length ≤ maxMemoryBytes then buf0 ++ c else buf0
  { buf := buf1, total := total }

/-- The stderr data handler differs: after the trim it always appends. -/
def stderrDataStep (limitBytes maxBytes : Nat) (st : StreamBuf) (c : List Nat) :
    StreamBuf :=
  let total := st.total + c.length
  let maxMemoryBytes := max (limitBytes * 2) maxBytes
  let buf0 := if st.buf.length > maxMemoryBytes then
      takeRight (min limitBytes (maxMemoryBytes / 2)) st.buf
    else st.buf
  { buf := buf0 ++ c, total := total }

def foldStream (step : StreamBuf → List Nat → StreamBuf)
    (chunks : List (List Nat)) : StreamBuf :=
  chunks.foldl step { buf := [], total := 0 }

/-- The startOffset computation of execWithPagination:
parse the cursor when one is present, else 0. -/
def cursorStartOffset (pagination : Option PaginationConfig) : Except String Nat :=
  match pagination with
  | some p =>
    match p.cursor with
    | some cu => parseCursor (some cu)
    | none => Except.ok 0
  | none => Except.ok 0

/-- The effective page byte limit of execWithPagination:
requested (default 40000), floored at 1, capped at 40000. -/
def effectiveLimitBytes (pagination : Option PaginationConfig) : Nat :=
  let requested : Int := match pagination with
    | some p => match p.limit_bytes with
      | some v => v
      | none => (DEFAULT_PAGE_LIMIT_BYTES : Int)
    | none => (DEFAULT_PAGE_LIMIT_BYTES : Int)
  (min (max 1 requested) (MAX_PAGE_LIMIT_BYTES : Int)).toNat

/-- The effective line limit: limit_lines with JS-falsy 0 defaulting to
2000 (a negative value is truthy and kept). -/
def effectiveLimitLines (pagination : Option PaginationConfig) : Int :=
  match pagination with
  | some p =>
    match p.limit_lines with
    | some v => if v = 0 then 2000 else v
    | none => 2000
  | none => 2000

structure ExecResult where
  stdout : List Nat
  stderr : List Nat
  totalBytes : Nat
  totalStdoutBytes : Nat
  truncated : Bool
  nextCursor : Option Nat
  limitBytes : Nat
  spillStdoutPresent : Bool
  spawnedEnv : List (String × String)
  deriving DecidableEq, Repr

/-- The stdout page read of execWithPagination: the byte range from the
spill file when one was written, else the byte-aligned slice of the capped
in-memory buffer. -/
def returnedStdoutBytes (stdoutChunks : List (List Nat))
    (limitBytes maxBytes startOffset : Nat) (hasStdoutSpill : Bool) : List Nat :=
  if hasStdoutSpill then
    readFileRange stdoutChunks.flatten startOffset
      (min (startOffset + limitBytes)
        (foldStream (stdoutDataStep limitBytes maxBytes) stdoutChunks).total)
  else
    let stdoutState := foldStream (stdoutDataStep limitBytes maxBytes) stdoutChunks
    let stdoutEnd := min (startOffset + limitBytes) stdoutState.buf.length
    (stdoutState.buf.drop startOffset).take (stdoutEnd - startOffset)

/-- The stderr page read: the [0, min(maxBytes, total)) range. -/
def returnedStderrBytes (stderrChunks : List (List Nat))
    (limitBytes maxBytes : Nat) (hasStderrSpill : Bool) : List Nat :=
  if hasStderrSpill then
    readFileRange stderrChunks.flatten 0
      (min maxBytes (foldStream (stderrDataStep limitBytes maxBytes) stderrChunks).total)
  else
    let stderrState := foldStream (stderrDataStep limitBytes maxBytes) stderrChunks
    stderrState.buf.take (min maxBytes stderrState.buf.length)

/-- The page-construction body of execWithPagination, after limit parsing
and cursor parsing: buffering, spill reads, pagination decision and cursor
computation. -/
def execPage (parentEnv : List (String × String)) (policy : Policy)
    (stdoutChunks stderrChunks : List (List Nat))
    (limitBytes : Nat) (limitLines : Int) (startOffset : Nat)
    (onLargeOutput : LargeOutputBehavior)
    (maxBytes : Nat) : Except String ExecResult :=
  let spillFilePresent : Bool := onLargeOutput = LargeOutputBehavior.spill
  let stdoutState := foldStream (stdoutDataStep limitBytes maxBytes) stdoutChunks
  let stderrState := foldStream (stderrDataStep limitBytes maxBytes) stderrChunks
  let totalStdoutBytes := stdoutState.total
  let totalStderrBytes := stderrState.total
  let hasStdoutSpill := spillFilePresent && !stdoutChunks.isEmpty
  let hasStderrSpill := spillFilePresent && !stderrChunks.isEmpty
  let returnedStdout :=
    returnedStdoutBytes stdoutChunks limitBytes maxBytes startOffset hasStdoutSpill
  let returnedStderr :=
    returnedStderrBytes stderrChunks limitBytes maxBytes hasStderrSpill
  let stdoutLines := countLines returnedStdout
  let totalBytes := totalStdoutBytes + totalStderrBytes
  let needsPagination : Bool :=
    decide (limitBytes < totalStdoutBytes) || decide (limitLines < (stdoutLines : Int))
  let base : ExecResult :=
    { stdout := returnedStdout, stderr := returnedStderr,
      totalBytes := totalBytes, totalStdoutBytes := totalStdoutBytes,
      truncated := false, nextCursor := none, limitBytes := limitBytes,
      spillStdoutPresent := hasStdoutSpill,
      spawnedEnv := filteredEnv parentEnv policy }
  if needsPagination && (onLargeOutput = LargeOutputBehavior.truncate : Bool) then
    Except.ok { base with truncated := true }
  else if needsPagination && (onLargeOutput = LargeOutputBehavior.error : Bool) then
    Except.error ("Output too large: " ++ toString totalBytes ++ " bytes, "
      ++ toString stdoutLines ++ " lines. Use pagination or spill mode.")
  else if needsPagination && spillFilePresent then
    let nextOffset := startOffset + returnedStdout.length
    if totalStdoutBytes > nextOffset then
      Except.ok { base with nextCursor := some nextOffset }
    else Except.ok base
  else Except.ok base

/-- execWithPagination from src/lib/execution.ts: limit sanitization, cursor
parsing, then the page construction. The limitBytes and totalStdoutBytes
fields of the result record the local variables of the same names. -/
def execWithPagination (parentEnv : List (String × String)) (policy : Policy)
    (stdoutChunks stderrChunks : List (List Nat))
    (pagination : Option PaginationConfig)
    (onLargeOutput : LargeOutputBehavior)
    (maxBytes : Nat) : Except String ExecResult :=
  match cursorStartOffset pagination with
  | Except.error e => Except.error e
  | Except.ok startOffset =>
    execPage parentEnv policy stdoutChunks stderrChunks
      (effectiveLimitBytes pagination) (effectiveLimitLines pagination)
      startOffset onLargeOutput maxBytes

theorem foldStream_stdout_total (lb mb : Nat) (chunks : List (List Nat)) :
    (foldStream (stdoutDataStep lb mb) chunks).total = chunks.flatten.length := by
  have hgen : ∀ (st : StreamBuf),
      (chunks.foldl (stdoutDataStep lb mb) st).total
        = st.total + chunks.flatten.length := by
    induction chunks with
    | nil => intro st; simp
    | cons c cs ih =>
      intro st
      rw [List.foldl_cons, ih]
      simp [stdoutDataStep]
      omega
  unfold foldStream
  rw [hgen]
  simp

theorem readFileRange_length (content : List Nat) (s e : Nat)
    (he : e ≤ content.length) :
    (readFileRange content s e).length = e - s := by
  unfold readFileRange
  by_cases hes : e ≤ s
  · rw [if_pos hes]
    simp
    omega
  · rw [if_neg hes]
    simp
    omega

theorem effectiveLimitBytes_pos (pagination : Option PaginationConfig) :
    1 ≤ effectiveLimitBytes pagination := by
  unfold effectiveLimitBytes
  cases pagination with
  | none => decide
  | some p =>
    obtain ⟨cu, lbv, llv⟩ := p
    cases lbv with
    | none =>
      dsimp only
      decide
    | some v =>
      dsimp only
      simp only [MAX_PAGE_LIMIT_BYTES, Nat.cast_ofNat]
      omega

/-- The length of the stdout page: with at most limit bytes requested past
startOffset, it covers [startOffset, min(startOffset+limit, total)). -/
theorem returnedStdoutBytes_length (co : List (List Nat))
    (lb maxB off : Nat) (b : Bool) (hb : b = !co.isEmpty) :
    (returnedStdoutBytes co lb maxB off b).length
      = min (off + lb) co.flatten.length - off := by
  unfold returnedStdoutBytes
  cases co with
  | nil =>
    rw [hb]
    rw [if_neg (by simp)]
    simp [foldStream]
  | cons c cs =>
    rw [hb]
    rw [if_pos (by simp)]
    rw [foldStream_stdout_total]
    exact readFileRange_length _ _ _ (min_le_right _ _)

/-- Inversion of execPage in spill mode: the page limit and total are
recorded, the returned chunk covers [startOffset, min(startOffset+limit,
total)), and the next cursor is present exactly when pagination was needed
and stdout bytes remain past the returned chunk. -/
theorem execPage_spill_inv (pe : List (String × String)) (po : Policy)
    (co ce : List (List Nat)) (lb : Nat) (ll : Int) (off maxB : Nat)
    (r : ExecResult)
    (h : execPage pe po co ce lb ll off LargeOutputBehavior.spill maxB
        = Except.ok r) :
    r.limitBytes = lb ∧
    r.totalStdoutBytes = co.flatten.length ∧
    r.stdout.length = min (off + lb) co.flatten.length - off ∧
    r.nextCursor =
      (if ((decide (lb < co.flatten.length)
            || decide (ll < (countLines r.stdout : Int))) = true
          ∧ off + r.stdout.length < co.flatten.length) then
        some (off + r.stdout.length)
      else none) := by
  unfold execPage at h
  dsimp only at h
  simp only [foldStream_stdout_total] at h
  have hlen := returnedStdoutBytes_length co lb maxB off
    ((decide (LargeOutputBehavior.spill = LargeOutputBehavior.spill) : Bool)
      && !co.isEmpty) (by simp)
  split at h
  · rename_i c1
    exact absurd c1 (by simp)
  · rename_i c1
    split at h
    · rename_i c2
      exact absurd c2 (by simp)
    · rename_i c2
      split at h
      · rename_i c3
        have c3x := c3
        rw [Bool.and_eq_true] at c3x
        have hnp := c3x.1
        split at h
        · rename_i c4
          injection h with hr
          subst hr
          refine ⟨rfl, rfl, by simpa using hlen, ?_⟩
          rw [if_pos ⟨by simpa using hnp, by simpa using c4⟩]
        · rename_i c4
          injection h with hr
          subst hr
          refine ⟨rfl, rfl, by simpa using hlen, ?_⟩
          rw [if_neg ?_]
          intro hcontra
          exact c4 (by simpa using hcontra.2)
      · rename_i c3
        injection h with hr
        subst hr
        refine ⟨rfl, rfl, by simpa using hlen, ?_⟩
        rw [if_neg ?_]
        intro hcontra
        refine c3 ?_
        rw [Bool.and_eq_true]
        refine ⟨by simpa using hcontra.1, by simp⟩

/-- The raw-range length arithmetic of the spill page: the returned raw
stdout byte range runs from the cursor offset to min(offset + limit, total),
and a cursor past the end yields an empty range. -/
theorem execWithPagination_stdout_length :
    ∀ (pe : List (String × String)) (po : Policy) (co ce : List (List Nat))
      (pagination : Option PaginationConfig) (maxB off : Nat) (r : ExecResult),
      cursorStartOffset pagination = Except.ok off →
      execWithPagination pe po co ce pagination LargeOutputBehavior.spill maxB
        = Except.ok r →
      (off ≤ r.totalStdoutBytes →
        off + r.stdout.length = min (off + r.limitBytes) r.totalStdoutBytes) ∧
      (r.totalStdoutBytes < off → r.stdout = [] ∧ off + r.stdout.length = off) := by
  intro pe po co ce pagination maxB off r hoff h
  unfold execWithPagination at h
  rw [hoff] at h
  dsimp only at h
  obtain ⟨hlb, hT, hlen, hcur⟩ := execPage_spill_inv pe po co ce _ _ off maxB r h
  have hpos : 1 ≤ effectiveLimitBytes pagination := effectiveLimitBytes_pos pagination
  rw [hT, hlb]
  constructor
  · intro hle
    omega
  · intro hgt
    have hzero : r.stdout.length = 0 := by omega
    exact ⟨List.length_eq_zero.mp hzero, by omega⟩

/-- C6 (amended): in spill mode, bytes_end is bytes_start plus
Buffer.byteLength of the decoded stdout chunk. When the cursor offset does
not exceed the total stdout bytes and the returned raw byte range decodes
cleanly (it is valid UTF-8, in particular no page boundary splits a
multi-byte character), bytes_end equals
min(bytes_start + limit_bytes, total_stdout_bytes); a boundary that cuts a
multi-byte character inflates bytes_end beyond that min through U+FFFD
replacement (see the counterexample). A cursor past the end of the stream
yields an empty chunk with bytes_end = bytes_start, above the claimed min. -/
theorem shellExec_bytes_end_eq :
    ∀ (pe : List (String × String)) (po : Policy) (co ce : List (List Nat))
      (pagination : Option PaginationConfig) (maxB off : Nat) (r : ExecResult),
      cursorStartOffset pagination = Except.ok off →
      execWithPagination pe po co ce pagination LargeOutputBehavior.spill maxB
        = Except.ok r →
      (off ≤ r.totalStdoutBytes → utf8Clean r.stdout = true →
        off + utf8ReplacedByteLength r.stdout
          = min (off + r.limitBytes) r.totalStdoutBytes) ∧
      (r.totalStdoutBytes < off →
        r.stdout = [] ∧ off + utf8ReplacedByteLength r.stdout = off) := by
  intro pe po co ce pagination maxB off r hoff h
  obtain ⟨h1, h2⟩ :=
    execWithPagination_stdout_length pe po co ce pagination maxB off r hoff h
  constructor
  · intro hle hclean
    rw [utf8Clean_byteLength r.stdout hclean]
    exact h1 hle
  · intro hgt
    obtain ⟨he, _⟩ := h2 hgt
    refine ⟨he, ?_⟩
    rw [he]
    rfl

def execResultC6 : ExecResult :=
  { stdout := [97], stderr := [], totalBytes := 3, totalStdoutBytes := 3,
    truncated := false, nextCursor := some 1, limitBytes := 1,
    spillStdoutPresent := true, spawnedEnv := [] }

/-- Closed instantiation of shellExec_bytes_end_eq at a cursor inside the
stream with a cleanly decoding chunk:
bytes_end = min(bytes_start + limit, total). -/
theorem shellExec_bytes_end_eq_witness :
    0 ≤ execResultC6.totalStdoutBytes ∧ utf8Clean execResultC6.stdout = true ∧
    0 + utf8ReplacedByteLength execResultC6.stdout
      = min (0 + execResultC6.limitBytes) execResultC6.totalStdoutBytes :=
  ⟨by decide, by decide,
   (shellExec_bytes_end_eq []
     { rootDirectory := "/r", allowedWorktrees := [],
       worktreeDetectionEnabled := false, allow := [], deny := [],
       timeoutMs := 60000, maxBytes := 2000000, envWhitelist := [] }
     [[97, 98, 99]] []
     (some { cursor := some { cursor_type := some "bytes", offset := some 0 },
             limit_bytes := some 1, limit_lines := none })
     2000000 0 execResultC6 (by decide) (by decide)).1 (by decide) (by decide)⟩

/-- Refuting C6 as stated: a page boundary that splits the two-byte UTF-8
character 0xC3 0xA9 inflates bytes_end beyond the claimed min. The child
writes 0x61 0xC3 0xA9; with limit_bytes 2 at offset 0 the returned raw range
is 0x61 0xC3, whose decode is the letter a followed by U+FFFD, so
bytes_end = 0 + Buffer.byteLength = 0 + 4, while min(0 + 2, 3) = 2. Also,
a cursor past the end (offset above total) gives bytes_end = bytes_start,
likewise above the min. -/
theorem shellExec_bytes_end_counterexample :
    (execWithPagination []
        { rootDirectory := "/r", allowedWorktrees := [],
          worktreeDetectionEnabled := false, allow := [], deny := [],
          timeoutMs := 60000, maxBytes := 2000000, envWhitelist := [] }
        [[97, 195, 169]] []
        (some { cursor := some { cursor_type := some "bytes", offset := some 0 },
                limit_bytes := some 2, limit_lines := none })
        LargeOutputBehavior.spill 2000000).toOption.map
      (fun r => (r.stdout, 0 + utf8ReplacedByteLength r.stdout,
        min (0 + r.limitBytes) r.totalStdoutBytes))
      = some ([97, 195], 4, 2)
    ∧ ¬ ((4 : Nat) = 2) := by
  constructor
  · decide
  · decide

/-! ## Effective limits (src/lib/policy.ts getEffectiveLimits) -/

/-- getEffectiveLimits: timeout_seconds is preferred (clamped to [1, 300]
seconds then capped by policy), else legacy timeout_ms (clamped to
[1, 300000] then capped); max_output_bytes is clamped to [1000, 10000000]
and capped by policy. Math.floor is the identity in the Int model. -/
def getEffectiveLimits (timeoutMsInput timeoutSecondsInput maxOutputBytesInput :
    Option Int) (policy : Policy) : Int × Nat :=
  let effectiveTimeoutMs :=
    match timeoutSecondsInput with
    | some secs => min ((max 1 (min 300 secs)) * 1000) policy.timeoutMs
    | none =>
      match timeoutMsInput with
      | some ms => min (max 1 (min ms 300000)) policy.timeoutMs
      | none => policy.timeoutMs
  let effectiveMaxBytes :=
    match maxOutputBytesInput with
    | some v => min ((max 1000 (min 10000000 v)).toNat) policy.maxBytes
    | none => policy.maxBytes
  (effectiveTimeoutMs, effectiveMaxBytes)

/-! ## The shell_exec handler (src/handlers/shell-exec.ts) -/

/-- Modelled from the spec: parseEnvVars of src/lib/command.ts is imported by
the shell_exec handler but missing from the lib/command.ts of this snapshot;
per the spec, each stripped KEY=value token becomes an environment pair,
split at the first equals sign. -/
def parseEnvVars (envVars : List String) : List (String × String) :=
  envVars.map (fun sv =>
    let chars := sv.toList
    let key := chars.takeWhile (fun ch => !(ch = '='))
    let value := chars.drop (key.length + 1)
    (String.mk key, String.mk value))

structure ShellExecInput where
  cmd : String
  args : List String
  cwd : Option String
  page : Option PaginationConfig
  on_large_output : Option LargeOutputBehavior
  timeout_ms : Option Int
  timeout_seconds : Option Int
  max_output_bytes : Option Int

/-- The denial text built by handleShellExec on a policy denial. -/
def denialMessage (input : ShellExecInput) (fullCommandForPolicy : String)
    (check : PolicyCheckResult) (wrapperInfo : WrapperInfo) : String :=
  let base := "Denied by policy: " ++ fullCommandForPolicy ++ "\n\n"
    ++ "Reason: " ++ check.reason
  let base2 := match check.matchedRule with
    | some mr =>
      let rt := match check.ruleType with
        | some RuleType.deny => "deny"
        | some RuleType.allow => "allow"
        | none => "undefined"
      base ++ "\nMatched " ++ rt ++ " rule: /" ++ mr ++ "/"
    | none => base
  if wrapperInfo.isWrapper then
    let originalCmd := buildCmdLine input.cmd input.args
    if !(originalCmd = fullCommandForPolicy) then
      base2 ++ "\n\nOriginal command: " ++ originalCmd
        ++ "\nUnwrapped command: " ++ fullCommandForPolicy
    else base2
  else base2

/-- The structured success body of a shell_exec response (the fields the
claims concern; exit code, signal and duration are timing artifacts of the
child oracle and carry no information here). total_stdout_bytes records the
executor's stdout byte count (total_bytes is stdout+stderr as serialized);
bytes_end is bytes_start plus Buffer.byteLength of the decoded stdout chunk,
i.e. utf8ReplacedByteLength of the raw range. -/
structure ShellExecOk where
  bytes_start : Nat
  bytes_end : Nat
  total_bytes : Nat
  total_stdout_bytes : Nat
  stdout_chunk : List Nat
  next_cursor : Option Nat
  truncated : Bool
  spill_uri_retained : Bool
  spawnedEnv : List (String × String)
  additionalEnv : List (String × String)
  cwdResolved : String
  effectiveCmd : String
  effectiveArgs : List String
  deriving DecidableEq, Repr

/-- handleShellExec from src/handlers/shell-exec.ts. Oracles: fsAccess and
realpath for the cwd validation, gitWorktrees for worktree detection,
parentEnv for the process environment, stdoutChunks/stderrChunks for the
child output. An Except.error is an isError response (or, for ensureCwd and
the error mode of the executor, an exception surfacing to the dispatcher);
every error path precedes the execWithPagination call except the
output-too-large throw. The handler computes additionalEnv from the stripped
KEY=value prefixes and passes it to execWithPagination, whose signature in
lib/execution.ts has no such parameter; the value is therefore recorded in
the response model but absent from spawnedEnv. -/
def handleShellExec (fsAccess : String → Bool)
    (realpath : String → Option String) (gitWorktrees : List String)
    (parentEnv : List (String × String))
    (stdoutChunks stderrChunks : List (List Nat))
    (input : ShellExecInput) (policy : Policy) : Except String ShellExecOk :=
  match input.page with
  | none => Except.error "Error: pagination parameters are required"
  | some page =>
    if (match input.cwd with
        | some c => !(c = "") && pathIsAbsolute c
        | none => false) then
      Except.error ("Error: cwd must be a relative path within sandbox root. "
        ++ "Received absolute: " ++ (match input.cwd with | some c => c | none => "")
        ++ ". Sandbox root: " ++ policy.rootDirectory)
    else
      let cwdStr := match input.cwd with
        | some c => if c = "" then "." else c
        | none => "."
      let resolvedCwd := nodeResolve2 policy.rootDirectory cwdStr
      match ensureCwd fsAccess realpath gitWorktrees resolvedCwd policy with
      | Except.error e => Except.error e
      | Except.ok _ =>
        match stripEnvPrefixes input.cmd input.args with
        | Except.error e => Except.error ("Error: " ++ e)
        | Except.ok (envVars, cmdWithoutEnv, argsWithoutEnv) =>
          match parseShellWrapper cmdWithoutEnv argsWithoutEnv with
          | Except.error e => Except.error ("Error: " ++ e)
          | Except.ok wrapperInfo =>
            let fullCommandForPolicy :=
              if wrapperInfo.isWrapper then
                String.intercalate " "
                  (parseShellCommand (match wrapperInfo.commandString with
                    | some cs => cs
                    | none => ""))
              else buildCmdLine cmdWithoutEnv argsWithoutEnv
            let policyCheck := checkCommandPolicy fullCommandForPolicy policy
            if !policyCheck.allowed then
              Except.error (denialMessage input fullCommandForPolicy policyCheck
                wrapperInfo)
            else
              let limits := getEffectiveLimits input.timeout_ms
                input.timeout_seconds input.max_output_bytes policy
              let onLargeOutput := match input.on_large_output with
                | some b => b
                | none => LargeOutputBehavior.spill
              match (match page.limit_bytes with
                | some lbv =>
                  if lbv ≤ 0 then
                    Except.error "Error: limit_bytes must be a positive number"
                  else if lbv > (MAX_PAGE_LIMIT_BYTES : Int) then
                    Except.error ("Error: limit_bytes must be <= "
                      ++ toString MAX_PAGE_LIMIT_BYTES)
                  else Except.ok ()
                | none => Except.ok ()) with
              | Except.error e => Except.error e
              | Except.ok _ =>
                match (match page.cursor with
                  | some cu =>
                    match parseCursor (some cu) with
                    | Except.error m => Except.error
                        ("Error: Invalid cursor format in pagination config: " ++ m)
                    | Except.ok off => Except.ok (some off)
                  | none => Except.ok none) with
                | Except.error e => Except.error e
                | Except.ok parsedCursorOffset =>
                  let execCmd :=
                    if wrapperInfo.isWrapper then
                      if wrapperInfo.shell = some "sh" then "/bin/sh" else "/bin/bash"
                    else cmdWithoutEnv
                  let commandString0 := match wrapperInfo.commandString with
                    | some cs => cs
                    | none => ""
                  let commandString :=
                    if envVars.length > 0 then
                      String.intercalate " " envVars ++ " " ++ commandString0
                    else commandString0
                  let execArgs :=
                    if wrapperInfo.isWrapper then
                      wrapperInfo.flagsBeforeCommand
                      ++ (if wrapperInfo.shouldUseLogin then ["-l"] else [])
                      ++ (if wrapperInfo.shell = some "bash" then
                            ["-o", "pipefail", "-o", "errexit", "-c", commandString]
                          else ["-e", "-c", commandString])
                      ++ (match wrapperInfo.argsAfterCommand with
                          | some a =>
                            let originalArgsAfterCommand := a + envVars.length
                            if originalArgsAfterCommand < input.args.length then
                              input.args.drop originalArgsAfterCommand
                            else []
                          | none => [])
                    else argsWithoutEnv
                  let additionalEnv :=
                    if envVars.length > 0 then parseEnvVars envVars else []
                  match execWithPagination parentEnv policy stdoutChunks
                      stderrChunks (some page) onLargeOutput limits.2 with
                  | Except.error e => Except.error e
                  | Except.ok res =>
                    let bytesStart := match parsedCursorOffset with
                      | some off => off
                      | none => 0
                    Except.ok
                      { bytes_start := bytesStart,
                        bytes_end := bytesStart + utf8ReplacedByteLength res.stdout,
                        total_bytes := res.totalBytes,
                        total_stdout_bytes := res.totalStdoutBytes,
                        stdout_chunk := res.stdout,
                        next_cursor := res.nextCursor,
                        truncated := res.truncated,
                        spill_uri_retained := res.spillStdoutPresent
                          && res.nextCursor.isSome,
                        spawnedEnv := res.spawnedEnv,
                        additionalEnv := additionalEnv,
                        cwdResolved := resolvedCwd,
                        effectiveCmd := execCmd,
                        effectiveArgs := execArgs }

/-! ## The read_file_chunk handler (src/handlers/read-file-chunk.ts) -/

structure ReadChunkOk where
  data : List Nat
  bytes_start : Nat
  bytes_end : Nat
  total_bytes : Nat
  next_cursor : Option Nat
  deriving DecidableEq, Repr

/-- handleReadFileChunk from src/handlers/read-file-chunk.ts. The spill
directory is the files association list (name to byte content); existsSync
is membership. The cursor is validated first and parsed again for use, as in
the source. -/
def handleReadFileChunk (files : List (String × List Nat)) (uri : String)
    (cursor : Option CursorConfig) (limit : Option Int) :
    Except String ReadChunkOk :=
  let requestedLimit : Int := match limit with
    | some v => v
    | none => (DEFAULT_PAGE_LIMIT_BYTES : Int)
  if requestedLimit ≤ 0 then
    Except.error "Error: limit_bytes must be a positive number"
  else if requestedLimit > (MAX_PAGE_LIMIT_BYTES : Int) then
    Except.error ("Error: limit_bytes must be <= " ++ toString MAX_PAGE_LIMIT_BYTES)
  else
    let limitBytes : Nat :=
      (min (max requestedLimit 1) (MAX_PAGE_LIMIT_BYTES : Int)).toNat
    let cursorOrDefault : Option CursorConfig := match cursor with
      | some cu => some cu
      | none => some { cursor_type := some "bytes", offset := some 0 }
    match parseCursor cursorOrDefault with
    | Except.error m => Except.error ("Error: Invalid cursor format: " ++ m)
    | Except.ok _ =>
      if !(strStartsWith uri "mcp://tmp/") then
        Except.error ("Error: Invalid URI format. Expected mcp://tmp/..., got: "
          ++ uri)
      else
        let fileName := String.mk (uri.toList.drop 10)
        match files.lookup fileName with
        | none => Except.error ("Error: Spill file not found: " ++ fileName)
        | some content =>
          let totalBytes := content.length
          match parseCursor cursorOrDefault with
          | Except.error m => Except.error ("Error reading spill file: " ++ m)
          | Except.ok offset =>
            let endPos := min (offset + limitBytes) totalBytes
            let chunk := readFileRange content offset endPos
            let nextCursor := if endPos < totalBytes then some endPos else none
            Except.ok { data := chunk, bytes_start := offset, bytes_end := endPos,
                        total_bytes := totalBytes, next_cursor := nextCursor }

/-! ## Claims about the handlers -/

/-- A policy whose allow list accepts commands starting with env, with PATH
as the only whitelisted environment name. -/
def allowEnvPolicy : Policy :=
  { rootDirectory := "/r", allowedWorktrees := [], worktreeDetectionEnabled := false,
    allow := [{ src := "envAllow", test := fun s => strStartsWith s "env" }],
    deny := [], timeoutMs := 10000, maxBytes := 100000,
    envWhitelist := ["PATH"] }

def shellExecInputC3 : ShellExecInput :=
  { cmd := "FOO=bar", args := ["env"], cwd := none,
    page := some { cursor := some { cursor_type := some "bytes", offset := some 0 },
                   limit_bytes := none, limit_lines := none },
    on_large_output := none, timeout_ms := none, timeout_seconds := none,
    max_output_bytes := none }

def shellExecResultC3 : Except String ShellExecOk :=
  handleShellExec (fun _ => true) (fun p => some p) [] [("PATH", "/bin")]
    [[104, 105]] [] shellExecInputC3 allowEnvPolicy

/-- C3: the request FOO=bar env strips the environment prefix, so the spec
requires the child environment to be the whitelisted parent pair PATH plus
the stripped pair FOO=bar. The handler computes the stripped pairs
(additionalEnv) but execWithPagination in src/lib/execution.ts takes no such
parameter — the ninth argument of the call is dropped — so the spawn
environment is filteredEnv alone: PATH is forwarded and FOO is absent. -/
theorem handleShellExec_env_prefix_dropped :
    shellExecResultC3.toOption.map
        (fun r => (r.spawnedEnv, r.additionalEnv, r.spawnedEnv.lookup "FOO"))
      = some ([("PATH", "/bin")], [("FOO", "bar")], none) := by
  decide

/-- C7 (amended, part 1): shell_exec rejects every request whose page object
is absent, and every request whose cwd is a (non-empty) absolute path, the
latter with a message carrying the received path and the sandbox root. A
page lacking a cursor is NOT rejected (see the counterexample): the cursor
is only validated when present and its absence behaves as offset 0. -/
theorem shellExec_required_rejections :
    (∀ (fs : String → Bool) (rp : String → Option String) (gw : List String)
        (pe : List (String × String)) (so se : List (List Nat))
        (input : ShellExecInput) (policy : Policy),
      input.page = none →
      handleShellExec fs rp gw pe so se input policy =
        Except.error "Error: pagination parameters are required") ∧
    (∀ (fs : String → Bool) (rp : String → Option String) (gw : List String)
        (pe : List (String × String)) (so se : List (List Nat))
        (input : ShellExecInput) (policy : Policy)
        (c : String) (pg : PaginationConfig),
      input.page = some pg → input.cwd = some c → ¬ c = "" →
      pathIsAbsolute c = true →
      handleShellExec fs rp gw pe so se input policy =
        Except.error ("Error: cwd must be a relative path within sandbox root. "
          ++ "Received absolute: " ++ c ++ ". Sandbox root: "
          ++ policy.rootDirectory)) := by
  constructor
  · intro fs rp gw pe so se input policy hpage
    simp only [handleShellExec, hpage]
  · intro fs rp gw pe so se input policy c pg hpage hcwd hne habs
    simp only [handleShellExec, hpage, hcwd]
    rw [if_pos]
    simp only [habs, Bool.and_true, Bool.not_eq_eq_eq_not, Bool.not_true,
      decide_eq_false_iff_not]
    exact hne

theorem shellExec_required_rejections_witness :
    handleShellExec (fun _ => true) (fun p => some p) [] [] [] []
        { cmd := "git", args := [], cwd := none, page := none,
          on_large_output := none, timeout_ms := none, timeout_seconds := none,
          max_output_bytes := none } allowEnvPolicy =
      Except.error "Error: pagination parameters are required" ∧
    handleShellExec (fun _ => true) (fun p => some p) [] [] [] []
        { cmd := "env", args := [], cwd := some "/abs",
          page := some { cursor := none, limit_bytes := none, limit_lines := none },
          on_large_output := none, timeout_ms := none, timeout_seconds := none,
          max_output_bytes := none } allowEnvPolicy =
      Except.error ("Error: cwd must be a relative path within sandbox root. "
        ++ "Received absolute: " ++ "/abs" ++ ". Sandbox root: " ++ "/r") :=
  ⟨shellExec_required_rejections.1 _ _ _ _ _ _ _ _ rfl,
   shellExec_required_rejections.2 (fun _ => true) (fun p => some p) [] [] [] []
     _ allowEnvPolicy "/abs" _ rfl rfl (by decide) (by decide)⟩

def shellExecInputC7 : ShellExecInput :=
  { cmd := "env", args := [], cwd := none,
    page := some { cursor := none, limit_bytes := none, limit_lines := none },
    on_large_output := none, timeout_ms := none, timeout_seconds := none,
    max_output_bytes := none }

/-- C7 (amended, part 2 — refuting the cursor-mandatory part of the claim):
a request whose page object has no cursor at all is accepted; both the
handler and the executor treat the missing cursor as offset 0 and the
response starts at byte 0. -/
theorem shellExec_missing_cursor_accepted :
    (handleShellExec (fun _ => true) (fun p => some p) [] [("PATH", "/bin")]
          [[104, 105]] [] shellExecInputC7 allowEnvPolicy).toOption.map
        (fun r => (r.bytes_start, r.bytes_end, r.stdout_chunk))
      = some (0, 2, [104, 105]) := by
  decide

/-- parseCursor accepts a bytes cursor with a non-negative offset. -/
theorem parseCursor_bytes (off : Int) (h : 0 ≤ off) :
    parseCursor (some { cursor_type := some "bytes", offset := some off }) =
      Except.ok off.toNat := by
  unfold parseCursor
  dsimp only
  rw [if_neg (by decide), if_neg (by decide), if_neg (by omega)]

/-- C10: a read_file_chunk call on an existing spill file with a valid bytes
cursor whose offset is at or past the file size succeeds: empty data,
bytes_start the requested offset, bytes_end = total_bytes (which is then at
most bytes_start), and no next_cursor. -/
theorem readFileChunk_offset_past_end (files : List (String × List Nat))
    (uri : String) (content : List Nat) (off lb : Int)
    (huri : strStartsWith uri "mcp://tmp/" = true)
    (hfile : files.lookup (String.mk (uri.toList.drop 10)) = some content)
    (hlb0 : 0 < lb) (hlb1 : lb ≤ (MAX_PAGE_LIMIT_BYTES : Int))
    (hoff0 : 0 ≤ off) (hpast : (content.length : Int) ≤ off) :
    handleReadFileChunk files uri
        (some { cursor_type := some "bytes", offset := some off }) (some lb) =
      Except.ok { data := [], bytes_start := off.toNat,
                  bytes_end := content.length,
                  total_bytes := content.length, next_cursor := none } := by
  unfold handleReadFileChunk
  dsimp only
  rw [if_neg (by omega), if_neg (by omega), parseCursor_bytes off hoff0]
  rw [if_neg (by simp [huri]), hfile]
  dsimp only
  have hend : min (off.toNat + (min (max lb 1) (MAX_PAGE_LIMIT_BYTES : Int)).toNat)
      content.length = content.length := by omega
  rw [hend]
  have hchunk : readFileRange content off.toNat content.length = [] := by
    unfold readFileRange
    rw [if_pos (by omega)]
  rw [hchunk, if_neg (by omega)]

theorem readFileChunk_offset_past_end_witness :
    strStartsWith "mcp://tmp/f.out" "mcp://tmp/" = true ∧
    handleReadFileChunk [("f.out", [104, 105])] "mcp://tmp/f.out"
        (some { cursor_type := some "bytes", offset := some 5 }) (some 10) =
      Except.ok { data := [], bytes_start := 5, bytes_end := 2,
                  total_bytes := 2, next_cursor := none } :=
  ⟨by decide,
   readFileChunk_offset_past_end [("f.out", [104, 105])] "mcp://tmp/f.out"
     [104, 105] 5 10 (by decide) (by decide) (by decide) (by decide)
     (by decide) (by decide)⟩

end Shemcp
